import Mathlib

/-!
Verification of the reconciliation cache and path-mapping engine of the
Perforce-Friend repository, embedded from
src/src/app/api/p4/files/modified/route.ts.

The parser, the cache store, the path mapper and the orchestrating GET
handler are modelled as pure Lean functions over explicit state.  JavaScript
regular-expression matching (two fixed patterns) is embedded as
deterministic character-list matchers that reproduce the backtracking
semantics of those patterns; JavaScript object key tables are embedded as
insertion-ordered association lists.
-/

namespace PerforceFriend

/-- JS `\w` character class: ASCII letters, digits and underscore. -/
def isWordChar (c : Char) : Bool :=
  (('a' ≤ c) && (c ≤ 'z')) || (('A' ≤ c) && (c ≤ 'Z')) ||
  (('0' ≤ c) && (c ≤ '9')) || (c = '_')

/-- JS `\s` character class (ASCII portion, sufficient for scan-output lines). -/
def isSpaceChar (c : Char) : Bool :=
  (c = ' ') || (c = '\t') || (c = '\n') || (c = '\r') ||
  (c = '\x0b') || (c = '\x0c')

/-- ASCII lower-casing, as JS `toLowerCase` acts on the characters occurring here. -/
def lowerChar (c : Char) : Char :=
  if ('A' ≤ c) && (c ≤ 'Z') then Char.ofNat (c.toNat + 32) else c

/-- JS `String.prototype.toLowerCase` on a character list. -/
def toLowerJS (l : List Char) : List Char := l.map lowerChar

/-- JS `String.prototype.trim` on a character list. -/
def trimL (l : List Char) : List Char :=
  ((l.dropWhile isSpaceChar).reverse.dropWhile isSpaceChar).reverse

/-- JS `split("\n")` on a character list: the list of newline-separated
segments (an empty input yields one empty segment, like in JS). -/
def splitNL : List Char → List (List Char)
  | [] => [[]]
  | c :: cs =>
    match splitNL cs with
    | [] => [[]]
    | l :: ls => if c = '\n' then [] :: l :: ls else (c :: l) :: ls

/-- Strip a case-insensitive literal (given lower-case) from the front of a
character list; `none` when the literal does not match. -/
def stripLit : List Char → List Char → Option (List Char)
  | [], cs => some cs
  | _ :: _, [] => none
  | p :: ps, c :: cs => if lowerChar c = p then stripLit ps cs else none

/-- Does the suffix have the shape `#` followed by one or more digits
(the optional `(?:#\d+)?$` tail of pattern 1)? -/
def hashSuffixOk : List Char → Bool
  | '#' :: ds => (!ds.isEmpty) && ds.all Char.isDigit
  | _ => false

/-- The lazy `(.+?)(?:#\d+)?$` capture of pattern 1: the shortest non-empty
front such that the rest is empty or a `#revision` suffix (so the earliest
all-digit `#` suffix is stripped; with none present the whole input is kept). -/
def depotGo (acc : List Char) : List Char → List Char
  | [] => acc.reverse
  | c :: rs =>
    if (!acc.isEmpty) && hashSuffixOk (c :: rs) then acc.reverse
    else depotGo (c :: acc) rs

def depotCapture (r : List Char) : List Char := depotGo [] r

/-- The part of pattern 1 after the optional leading word:
`reconcile\s+(\w+)\s+(.+?)(?:#\d+)?$` (case-insensitive).  Returns
`(action, depotFile)` on a match.  The greedy/lazy quantifier interplay of
the JS regex collapses to: the literal, a maximal space run, a maximal word
run (the action, which must be followed by at least one space), a maximal
space run, and a non-empty remainder captured by `depotCapture`. -/
def matchCore (cs : List Char) : Option (List Char × List Char) :=
  match stripLit "reconcile".toList cs with
  | none => none
  | some r1 =>
    match r1.span isSpaceChar with
    | (sp, r2) =>
      if sp.isEmpty then none
      else
        match r2.span isWordChar with
        | (act, r3) =>
          if act.isEmpty then none
          else
            match r3.span isSpaceChar with
            | (sp2, r4) =>
              if sp2.isEmpty then none
              else if r4.isEmpty then none
              else some (act, depotCapture r4)

/-- Pattern 1 of the parser:
`^(?:\w+\s+)?reconcile\s+(\w+)\s+(.+?)(?:#\d+)?$/i`.  The optional leading
group, when taken, is forced to be the maximal word run followed by the
maximal space run (word and space characters are disjoint); the engine
first tries the input with that leading group consumed and falls back to
the whole input. -/
def matchPattern1 (cs : List Char) : Option (List Char × List Char) :=
  match cs.span isWordChar with
  | (w, r1) =>
    match r1.span isSpaceChar with
    | (sp, r2) =>
      if (!w.isEmpty) && (!sp.isEmpty) then
        match matchCore r2 with
        | some res => some res
        | none => matchCore cs
      else matchCore cs

/-- The tail of pattern 2 after the lazily captured depot path:
`(?:#\d+)?\s+-\s+opened\s+for\s+(\w+)$` (case-insensitive).
Returns the captured action word on a match. -/
def tail2 (t : List Char) : Option (List Char) :=
  let step1 : Option (List Char) :=
    match t with
    | '#' :: rest =>
      match rest.span Char.isDigit with
      | (ds, r) => if ds.isEmpty then none else some r
    | _ => some t
  match step1 with
  | none => none
  | some u =>
    match u.span isSpaceChar with
    | (sp1, u1) =>
      if sp1.isEmpty then none
      else
        match u1 with
        | '-' :: u2 =>
          match u2.span isSpaceChar with
          | (sp2, u3) =>
            if sp2.isEmpty then none
            else
              match stripLit "opened".toList u3 with
              | none => none
              | some u4 =>
                match u4.span isSpaceChar with
                | (sp3, u5) =>
                  if sp3.isEmpty then none
                  else
                    match stripLit "for".toList u5 with
                    | none => none
                    | some u6 =>
                      match u6.span isSpaceChar with
                      | (sp4, u7) =>
                        if sp4.isEmpty then none
                        else if (!u7.isEmpty) && u7.all isWordChar then some u7
                        else none
        | _ => none

/-- The lazy scan of pattern 2: try every non-empty front of the line, from
the shortest on, as the `(.+?)` depot-path capture, and match `tail2` on the
rest.  Returns `(depotFile, action)`. -/
def p2go (acc : List Char) : List Char → Option (List Char × List Char)
  | [] => none
  | c :: rs =>
    if !acc.isEmpty then
      match tail2 (c :: rs) with
      | some act => some (acc.reverse, act)
      | none => p2go (c :: acc) rs
    else p2go (c :: acc) rs

/-- Pattern 2 of the parser: `^(.+?)(?:#\d+)?\s+-\s+opened\s+for\s+(\w+)$/i`. -/
def matchPattern2 (cs : List Char) : Option (List Char × List Char) :=
  p2go [] cs

/-- One loop iteration of `parseP4ReconcileOutput`: trim the line, try
pattern 1 then pattern 2, lower-case the action.  Returns
`(depotFile, action)` or `none` for a line that matches neither pattern. -/
def parseLine (line : List Char) : Option (List Char × List Char) :=
  let clean := trimL line
  match matchPattern1 clean with
  | some res =>
    match res with
    | (act, depot) => some (depot, toLowerJS act)
  | none =>
    match matchPattern2 clean with
    | some res =>
      match res with
      | (depot, act) => some (depot, toLowerJS act)
    | none => none

/-- The `P4ModifiedFile` record pushed by the parser (types/p4.ts). -/
structure P4ModifiedFile where
  depotFile : String
  clientFile : String
  localFile : String
  status : String
  type : String
deriving DecidableEq

/-- The record built for one matched line: empty client/local paths (to be
populated by the `p4 where` mapping step later), default type `text`; a line
whose extracted depot path or action is empty is skipped (the
`if (!depotFile || !action) continue` guard). -/
def lineRecord (l : List Char) : Option P4ModifiedFile :=
  match parseLine l with
  | none => none
  | some (depot, act) =>
    if depot.isEmpty || act.isEmpty then none
    else some ⟨depot.asString, "", "", act.asString, "text"⟩

/-- The per-line loop of the parser over an already-sliced list of lines. -/
def parseLines (ls : List (List Char)) : List P4ModifiedFile :=
  ls.filterMap lineRecord

/-- `output.trim().split("\n")`, with the early return for an output that is
empty or blank. -/
def linesOf (output : String) : List (List Char) :=
  if (trimL output.toList).isEmpty then [] else splitNL (trimL output.toList)

/-- `parseP4ReconcileOutput(output, maxFiles)` of route.ts: split the trimmed
output into lines, slice to the first `maxFiles` lines when `maxFiles > 0`
(all lines otherwise), and collect one record per line matching either
pattern. -/
def parseP4ReconcileOutput (output : String) (maxFiles : Int) : List P4ModifiedFile :=
  parseLines (if 0 < maxFiles then (linesOf output).take maxFiles.toNat else linesOf output)

/-- Number of segments of `output.split("\n")` on the raw (untrimmed)
output, as used for the `limitApplied` computation of the GET handler. -/
def countNLLines (output : String) : Nat := (splitNL output.toList).length

/-- `limitApplied = originalLineCount > files.length` (route.ts lines 766-767). -/
def limitAppliedCalc (output : String) (files : List P4ModifiedFile) : Bool :=
  decide (files.length < countNLLines output)

/-- Insertion-order duplicate removal, the semantics of
`Array.from(new Set(list))` in JS: keep the first occurrence of each
element.  `seen` accumulates the elements already emitted. -/
def jsSetDedupAux (seen : List String) : List String → List String
  | [] => []
  | x :: xs =>
    if x ∈ seen then jsSetDedupAux seen xs
    else x :: jsSetDedupAux (x :: seen) xs

def jsSetDedup (l : List String) : List String := jsSetDedupAux [] l

/-- Cache metadata file contents: the `timestamp` (createdAt, modelled in
milliseconds) and `processedFolders` fields, each possibly absent
(JS-falsy) in a stored file.  The `clientRoot`/`inclusionFolders` fields
are determined by the scope keying the entry and are not modelled. -/
structure Metadata where
  timestamp : Option Nat
  processedFolders : Option (List String)
deriving DecidableEq

/-- The persisted cache state for one scope: the raw-output cache file (if
it exists) and the sibling metadata file (if it exists). -/
structure CacheState where
  cacheFile : Option String
  metadata : Option Metadata
deriving DecidableEq

/-- `CACHE_EXPIRY_MS = 60 * 60 * 1000` (60 minutes). -/
def CACHE_EXPIRY_MS : Nat := 60 * 60 * 1000

/-- `creationTime` as computed by `getCachedReconcileResults`: the metadata
timestamp, or 0 when the metadata file or its timestamp field is absent. -/
def creationTimeOf (st : CacheState) : Nat :=
  match st.metadata with
  | some m => m.timestamp.getD 0
  | none => 0

/-- `getCachedReconcileResults`: returns the cached raw output when the
cache file exists and `now - creationTime < CACHE_EXPIRY_MS`; `none`
(a miss) otherwise. -/
def getCachedReconcileResults (st : CacheState) (now : Nat) : Option String :=
  match st.cacheFile with
  | some content =>
    if now - creationTimeOf st < CACHE_EXPIRY_MS then some content else none
  | none => none

/-- `saveReconcileResultsToCache(fs, path, tempFile, cacheFile, clientRoot,
inclusionFolders, isAppend)`: fresh metadata carries the current time and
`processedFolders = inclusionFolders`; in append mode an existing metadata
file keeps its (truthy) timestamp and its processed folders are unioned
(`Array.from(new Set(...))`); the cache file is appended to when in append
mode and already present, otherwise overwritten. -/
def saveReconcileResultsToCache (st : CacheState) (now : Nat) (tempContent : String)
    (inclusionFolders : List String) (isAppend : Bool) : CacheState :=
  let meta : Metadata :=
    if isAppend then
      match st.metadata with
      | some m =>
        { timestamp := some (m.timestamp.getD now)
          processedFolders :=
            match m.processedFolders with
            | some pf => some (jsSetDedup (pf ++ inclusionFolders))
            | none => some inclusionFolders }
      | none => { timestamp := some now, processedFolders := some inclusionFolders }
    else { timestamp := some now, processedFolders := some inclusionFolders }
  let newCacheFile : Option String :=
    if isAppend && st.cacheFile.isSome then some (st.cacheFile.getD "" ++ tempContent)
    else some tempContent
  { cacheFile := newCacheFile, metadata := some meta }

/-- The inlined per-folder cache append of the GET handler (route.ts lines
528-569): append the folder's output to the cache file (create it when
absent or empty), and update the metadata: keep an existing truthy
timestamp, union the folder path into `processedFolders`. -/
def appendFolderInline (st : CacheState) (now : Nat) (folderPath folderOutput : String) :
    CacheState :=
  let newCacheFile : Option String :=
    match st.cacheFile with
    | some c => if 0 < c.length then some (c ++ folderOutput) else some folderOutput
    | none => some folderOutput
  let meta : Metadata :=
    match st.metadata with
    | some m =>
      { timestamp := some (m.timestamp.getD now)
        processedFolders :=
          match m.processedFolders with
          | some pf => some (jsSetDedup (pf ++ [folderPath]))
          | none => some [folderPath] }
    | none => { timestamp := some now, processedFolders := some [folderPath] }
  { cacheFile := newCacheFile, metadata := some meta }

/-- The `processedFolders` recorded before an append: the metadata's list
when present, `[]` otherwise. -/
def prevProcessedFolders (st : CacheState) : List String :=
  match st.metadata with
  | some m => m.processedFolders.getD []
  | none => []

/-- `sanitizePathForP4Command`: drop a query string starting at a `?` at
positive index, drop one trailing slash or backslash, and convert forward
slashes to backslashes when the path contains `:\`. -/
def containsColonBackslash : List Char → Bool
  | [] => false
  | c :: cs => ((c = ':') && (cs.head? = some '\\')) || containsColonBackslash cs

def dropTrailingSlash (l : List Char) : List Char :=
  match l.reverse with
  | c :: rest => if c = '/' || c = '\\' then rest.reverse else l
  | [] => l

def sanitizePathForP4Command (folderPath : String) : String :=
  let l := folderPath.toList
  let l1 :=
    match l.findIdx? (· = '?') with
    | some i => if 0 < i then l.take i else l
    | none => l
  let l2 := dropTrailingSlash l1
  let l3 := if containsColonBackslash l2 then l2.map (fun c => if c = '/' then '\\' else c) else l2
  l3.asString

/-- One `(clientFile, path)` value of the `p4 where` path-mapping table. -/
structure PathVal where
  clientFile : String
  localFile : String
deriving DecidableEq

/-- The request-scoped `pathMap` JS object, as the insertion-ordered list of
`pathMap[depotPath] = {clientFile, localFile}` assignments. -/
def PathMap := List (String × PathVal)

/-- `Object.keys` of a JS object built by the listed assignments: each key
once, at its first-insertion position. -/
def jsObjKeys (pm : PathMap) : List String := jsSetDedup (pm.map Prod.fst)

/-- Property read `pathMap[k]` of a JS object: the value of the last
assignment to `k` (defaulting to empty paths; only used on present keys). -/
def jsObjGet (pm : PathMap) (k : String) : PathVal :=
  match pm.reverse.find? (fun kv => kv.1 = k) with
  | some kv => kv.2
  | none => ⟨"", ""⟩

/-- JS `startsWith`. -/
def jsStartsWith (s pre : String) : Bool := pre.toList.isPrefixOf s.toList

/-- JS `String.prototype.replace(pat, rep)` with string arguments: replace
the first occurrence of `pat` only (the string unchanged when absent). -/
def replaceFirstL (pat rep : List Char) : List Char → List Char
  | [] => if pat.isEmpty then rep else []
  | c :: cs =>
    if pat.isPrefixOf (c :: cs) then rep ++ (c :: cs).drop pat.length
    else c :: replaceFirstL pat rep cs

def jsReplaceFirst (s pat rep : String) : String :=
  (replaceFirstL pat.toList rep.toList s.toList).asString

/-- The per-record path resolution of the GET handler (route.ts lines
743-750): find the first `pathMap` key (in JS object key order) that is a
prefix of the record's depot path; the client path replaces that prefix
with the mapping's client path, the local path replaces it with the
mapping's local path and then has its first forward slash replaced by a
backslash.  A record with no matching key is left unchanged. -/
def resolveFile (pm : PathMap) (f : P4ModifiedFile) : P4ModifiedFile :=
  match (jsObjKeys pm).find? (fun k => jsStartsWith f.depotFile k) with
  | some k =>
    { f with
      clientFile := jsReplaceFirst f.depotFile k (jsObjGet pm k).clientFile
      localFile := jsReplaceFirst (jsReplaceFirst f.depotFile k (jsObjGet pm k).localFile) "/" "\\" }
  | none => f

/-- The path-mapping phase of the GET handler: when the `p4 where` step
failed (its invocation or parsing threw), the catch leaves the parsed
records untouched; otherwise every record is resolved against the table.
The `files.length > 0` guard of the source is kept. -/
def applyPathMapping (pmOpt : Option PathMap) (files : List P4ModifiedFile) :
    List P4ModifiedFile :=
  if files.isEmpty then files
  else
    match pmOpt with
    | none => files
    | some pm => files.map (resolveFile pm)

/-- The reconcile scan subprocesses spawned by one request: one
whole-workspace `p4 reconcile -m -n ...` run, or one `p4 reconcile -n
<folder>\...` run per included folder. -/
inductive ScanUnit where
  | whole (root : String)
  | folder (path : String)
deriving DecidableEq

/-- The JSON responses of the GET handler that the claims are about:
success (files, `limitApplied`, `fromCache`) or a failure with an HTTP
status and error message. -/
inductive ApiResponse where
  | ok (files : List P4ModifiedFile) (limitApplied : Bool) (fromCache : Bool)
  | err (status : Nat) (message : String)
deriving DecidableEq

/-- The query parameters of one modified-files request. -/
structure ReconcileRequest where
  clientRootParam : String
  inclusionFolders : List String
  maxFiles : Int
  forceRefresh : Bool

/-- The external world of one request: availability of `p4`, the client
root extractable from `p4 info`, the scan subprocess outcomes, and the
filesystem existence of folders.  (`p4 -V` and `p4 info` are the
availability/root probes that precede any reconcile scan.) -/
structure P4Env where
  p4Available : Bool
  p4InfoRoot : Option String
  wholeScanOk : Bool
  wholeScanOutput : String
  salvagedOutput : Option String
  folderExists : String → Bool
  folderScanOk : String → Bool
  folderScanOutput : String → String

/-- The final phase of the GET handler common to all successful paths:
parse the raw output (bounded by `maxFiles`), resolve paths, and compute
`limitApplied` from the untrimmed output's line count against the parsed
record count. -/
def finishPhase (req : ReconcileRequest) (pmOpt : Option PathMap) (output : String)
    (fromCache : Bool) (st : CacheState) (scans : List ScanUnit) :
    ApiResponse × CacheState × List ScanUnit :=
  let files := parseP4ReconcileOutput output req.maxFiles
  (ApiResponse.ok (applyPathMapping pmOpt files) (limitAppliedCalc output files) fromCache,
   st, scans)

/-- One iteration of the per-folder scan loop (route.ts lines 461-591):
skip a folder absent on disk (no subprocess), record a failed scan without
touching cache or output, and on success accumulate the folder output
(plus a newline) and append to the cache when the cache file path is
known. -/
def folderStep (env : P4Env) (now : Nat) (cacheFileKnown : Bool)
    (acc : CacheState × String × List ScanUnit) (folderPath : String) :
    CacheState × String × List ScanUnit :=
  let rp := sanitizePathForP4Command folderPath
  if !env.folderExists rp then acc
  else if !env.folderScanOk rp then (acc.1, acc.2.1, acc.2.2 ++ [ScanUnit.folder rp])
  else
    let fo := env.folderScanOutput rp
    let s1 := if cacheFileKnown then appendFolderInline acc.1 now folderPath fo else acc.1
    (s1, acc.2.1 ++ fo ++ "\n", acc.2.2 ++ [ScanUnit.folder rp])

/-- The GET handler of route.ts (cache consultation, scanning, cache
persistence, parsing and path mapping), as a function of the request, the
persisted cache state for the request's scope, the current time and the
environment.  Returns the response, the new cache state and the list of
reconcile scan subprocesses spawned.  `pmOpt` is the path-mapping table
obtained from the `p4 where` step (`none` when that step fails).  Note that
the cache file path variables are populated only on the
`!forceRefresh` branch (route.ts lines 384-398), so every later cache
write is guarded by `cacheFileKnown = !forceRefresh`. -/
def runGET (env : P4Env) (st : CacheState) (now : Nat) (req : ReconcileRequest)
    (pmOpt : Option PathMap) : ApiResponse × CacheState × List ScanUnit :=
  if !env.p4Available then
    (ApiResponse.err 500 "Perforce command-line client (p4) is not available on the server",
     st, [])
  else
    let clientRoot :=
      if req.clientRootParam ≠ "" then req.clientRootParam else env.p4InfoRoot.getD ""
    if clientRoot = "" then
      (ApiResponse.err 400 "No Perforce client root specified or found", st, [])
    else
      let cached : Option String :=
        if req.forceRefresh then none else getCachedReconcileResults st now
      let cacheFileKnown : Bool := !req.forceRefresh
      match cached with
      | some output => finishPhase req pmOpt output true st []
      | none =>
        if req.inclusionFolders.isEmpty then
          if env.wholeScanOk then
            let st1 :=
              if cacheFileKnown then
                saveReconcileResultsToCache st now env.wholeScanOutput req.inclusionFolders false
              else st
            finishPhase req pmOpt env.wholeScanOutput false st1 [ScanUnit.whole clientRoot]
          else
            match env.salvagedOutput with
            | some p =>
              if !(trimL p.toList).isEmpty then
                finishPhase req pmOpt p false st [ScanUnit.whole clientRoot]
              else
                (ApiResponse.err 500 "Failed to execute Perforce command", st,
                 [ScanUnit.whole clientRoot])
            | none =>
              (ApiResponse.err 500 "Failed to execute Perforce command", st,
               [ScanUnit.whole clientRoot])
        else
          let st0 :=
            if cacheFileKnown && (st.cacheFile.isNone || req.forceRefresh) then
              { st with cacheFile := some "" }
            else st
          let r := req.inclusionFolders.foldl (folderStep env now cacheFileKnown) (st0, "", [])
          finishPhase req pmOpt r.2.1 false r.1 r.2.2

/-- Claim-side notion, following the spec's words, for comparison with the
code's limit flag: the number of matchable lines of the raw scan output
(lines matching one of the two recognized textual shapes). -/
def specMatchableLineCount (output : String) : Nat :=
  ((linesOf output).filter (fun l => (parseLine l).isSome)).length

/-- Concrete environment used for the forced-refresh evaluation: `p4`
available, a succeeding whole-workspace scan, and succeeding per-folder
scans over folders that exist on disk. -/
def envForced : P4Env :=
  { p4Available := true, p4InfoRoot := none, wholeScanOk := true,
    wholeScanOutput := "reconcile edit //depot/a.txt", salvagedOutput := none,
    folderExists := fun _ => true, folderScanOk := fun _ => true,
    folderScanOutput := fun _ => "reconcile add //depot/b.txt" }

/-- Concrete cache state used for the forced-refresh evaluation: a live
cache entry, created at time 1000, looked up at time 2000 — far inside the
60-minute TTL. -/
def stForced : CacheState :=
  { cacheFile := some "reconcile edit //depot/old.txt"
    metadata := some ⟨some 1000, some []⟩ }

/-- A whole-workspace request with `forceRefresh=true`. -/
def reqForcedWhole : ReconcileRequest :=
  { clientRootParam := "C:/ws", inclusionFolders := [], maxFiles := 1000, forceRefresh := true }

/-- A per-folder request with `forceRefresh=true`. -/
def reqForcedFolder : ReconcileRequest :=
  { clientRootParam := "C:/ws", inclusionFolders := ["C:/ws/sub"], maxFiles := 1000,
    forceRefresh := true }

theorem mem_jsSetDedupAux (a : String) :
    ∀ (l seen : List String), a ∈ jsSetDedupAux seen l ↔ (a ∈ l ∧ a ∉ seen)
  | [], seen => by simp [jsSetDedupAux]
  | x :: xs, seen => by
    by_cases hx : x ∈ seen
    · simp only [jsSetDedupAux, if_pos hx, mem_jsSetDedupAux a xs seen, List.mem_cons]
      constructor
      · exact fun h => ⟨Or.inr h.1, h.2⟩
      · rintro ⟨rfl | hax, hns⟩
        · exact absurd hx hns
        · exact ⟨hax, hns⟩
    · simp only [jsSetDedupAux, if_neg hx, List.mem_cons, mem_jsSetDedupAux a xs (x :: seen)]
      constructor
      · rintro (rfl | ⟨hax, hns⟩)
        · exact ⟨Or.inl rfl, hx⟩
        · exact ⟨Or.inr hax, fun h => hns (Or.inr h)⟩
      · rintro ⟨rfl | hax, hns⟩
        · exact Or.inl rfl
        · by_cases hax2 : a = x
          · exact Or.inl hax2
          · exact Or.inr ⟨hax, fun h => h.elim hax2 hns⟩

theorem nodup_jsSetDedupAux : ∀ (l seen : List String), (jsSetDedupAux seen l).Nodup
  | [], _ => List.nodup_nil
  | x :: xs, seen => by
    by_cases hx : x ∈ seen
    · simpa only [jsSetDedupAux, if_pos hx] using nodup_jsSetDedupAux xs seen
    · simp only [jsSetDedupAux, if_neg hx]
      refine List.nodup_cons.mpr ⟨?_, nodup_jsSetDedupAux xs (x :: seen)⟩
      intro hmem
      exact ((mem_jsSetDedupAux x xs (x :: seen)).mp hmem).2 (List.mem_cons_self x seen)

theorem mem_jsSetDedup (a : String) (l : List String) : a ∈ jsSetDedup l ↔ a ∈ l := by
  simp [jsSetDedup, mem_jsSetDedupAux]

theorem nodup_jsSetDedup (l : List String) : (jsSetDedup l).Nodup :=
  nodup_jsSetDedupAux l []

theorem isPrefixOf_append_self : ∀ (p s : List Char), p.isPrefixOf (p ++ s) = true
  | [], s => by cases s <;> rfl
  | c :: p, s => by simp [List.isPrefixOf, isPrefixOf_append_self p s]

theorem replaceFirstL_append_self (p rep s : List Char) :
    replaceFirstL p rep (p ++ s) = rep ++ s := by
  cases p with
  | nil =>
    cases s with
    | nil => simp [replaceFirstL]
    | cons c cs => simp [replaceFirstL, List.isPrefixOf]
  | cons c p2 =>
    show replaceFirstL (c :: p2) rep (c :: (p2 ++ s)) = rep ++ s
    have hpre : (c :: p2).isPrefixOf (c :: (p2 ++ s)) = true := isPrefixOf_append_self (c :: p2) s
    simp only [replaceFirstL, hpre, if_pos]
    simp [List.drop_left]

theorem string_empty_append (s : String) : "" ++ s = s := by
  obtain ⟨l⟩ := s
  rfl

theorem jsReplaceFirst_append (k rest v : String) : jsReplaceFirst (k ++ rest) k v = v ++ rest := by
  obtain ⟨kl⟩ := k
  obtain ⟨rl⟩ := rest
  obtain ⟨vl⟩ := v
  calc jsReplaceFirst (String.mk kl ++ String.mk rl) (String.mk kl) (String.mk vl)
      = (replaceFirstL kl vl (kl ++ rl)).asString := rfl
    _ = (vl ++ rl).asString := by rw [replaceFirstL_append_self]
    _ = String.mk vl ++ String.mk rl := rfl

theorem resolveFile_depotFile (pm : PathMap) (f : P4ModifiedFile) :
    (resolveFile pm f).depotFile = f.depotFile := by
  rcases h : (jsObjKeys pm).find? (fun k => jsStartsWith f.depotFile k) with _ | k <;>
    simp [resolveFile, h]

theorem resolveFile_status (pm : PathMap) (f : P4ModifiedFile) :
    (resolveFile pm f).status = f.status := by
  rcases h : (jsObjKeys pm).find? (fun k => jsStartsWith f.depotFile k) with _ | k <;>
    simp [resolveFile, h]

/-- C1 (amended): each record's depot path is resolved by selecting the
FIRST mapping-table key, in JS-object insertion order (duplicates counted
at first occurrence), that is a prefix of the depot path — regardless of
key length; the client path is the depot path with that key replaced by
the mapping's client path, and the local path is the depot path with that
key replaced by the mapping's local path and then its first forward slash
replaced by a backslash. -/
theorem C1_first_match_resolution (pm : PathMap) (f : P4ModifiedFile) (k rest : String)
    (hfind : (jsObjKeys pm).find? (fun key => jsStartsWith f.depotFile key) = some k)
    (hdep : f.depotFile = k ++ rest) :
    resolveFile pm f =
      { f with
        clientFile := (jsObjGet pm k).clientFile ++ rest
        localFile := jsReplaceFirst ((jsObjGet pm k).localFile ++ rest) "/" "\\" } := by
  unfold resolveFile
  rw [hfind]
  dsimp only
  rw [hdep, jsReplaceFirst_append, jsReplaceFirst_append]

/-- C1 counterexample: with the spec's own mapping table (`//depot/`
inserted before `//depot/sub/`), the record `//depot/sub/file.txt` is
resolved through `//depot/` (the first matching key), producing local path
`\local/sub/file.txt` — not through the longer key `//depot/sub/`, which
would produce `/local/sub2/file.txt`. -/
theorem C1_counterexample :
    resolveFile
        [("//depot/", ⟨"/ws/", "/local/"⟩), ("//depot/sub/", ⟨"/ws/sub2/", "/local/sub2/"⟩)]
        ⟨"//depot/sub/file.txt", "", "", "edit", "text"⟩ =
      ⟨"//depot/sub/file.txt", "/ws/sub/file.txt", "\\local/sub/file.txt", "edit", "text"⟩
    ∧ "\\local/sub/file.txt" ≠ "/local/sub2/file.txt" := by
  refine ⟨by decide, by decide⟩

/-- C1 witness: the amended resolution applied to a single-mapping table. -/
theorem C1_witness :
    resolveFile [("//depot/", ⟨"/ws/", "/local/"⟩)] ⟨"//depot/a.txt", "", "", "edit", "text"⟩ =
      ⟨"//depot/a.txt", "/ws/a.txt", "\\local/a.txt", "edit", "text"⟩ :=
  C1_first_match_resolution _ _ "//depot/" "a.txt" (by decide) (by decide)

/-- C2 (amended): the record-limit flag is true exactly when the number of
newline-separated segments of the RAW, untrimmed output (matchable or not,
including blank segments) exceeds the number of parsed records; and for a
positive maxRecords the number of returned records is at most maxRecords. -/
theorem C2_limit_flag (output : String) (m : Int) :
    (limitAppliedCalc output (parseP4ReconcileOutput output m) = true ↔
      (parseP4ReconcileOutput output m).length < countNLLines output)
    ∧ (0 < m → (parseP4ReconcileOutput output m).length ≤ m.toNat) := by
  constructor
  · simp [limitAppliedCalc]
  · intro hm
    unfold parseP4ReconcileOutput parseLines
    rw [if_pos hm]
    exact le_trans (List.length_filterMap_le _ _)
      (by rw [List.length_take]; exact min_le_left _ _)

/-- C2 counterexample: raw output with one matchable line and one garbage
line, maxRecords 10.  The parse is not truncated (1 matchable line ≤ 10,
and exactly that one record is returned), yet `limitApplied` is true,
because the flag compares the raw line count (2) against the record count
(1) instead of comparing matchable lines against maxRecords. -/
theorem C2_counterexample :
    limitAppliedCalc "reconcile edit //depot/a.txt\ngarbage"
        (parseP4ReconcileOutput "reconcile edit //depot/a.txt\ngarbage" 10) = true
    ∧ specMatchableLineCount "reconcile edit //depot/a.txt\ngarbage" ≤ 10
    ∧ (parseP4ReconcileOutput "reconcile edit //depot/a.txt\ngarbage" 10).length =
        specMatchableLineCount "reconcile edit //depot/a.txt\ngarbage" := by
  refine ⟨by decide, by decide, by decide⟩

/-- C2 witness: the record count is bounded by a positive maxRecords. -/
theorem C2_witness :
    (parseP4ReconcileOutput "reconcile edit //depot/a.txt\ngarbage" 3).length ≤ (3 : Int).toNat :=
  (C2_limit_flag "reconcile edit //depot/a.txt\ngarbage" 3).2 (by decide)

/-- C3 (code bug evaluated at the failing input): with `forceRefresh=true`
and a live, unexpired cache entry present (created at 1000, request at
2000, TTL 60 minutes), a fresh scan is performed and the cache is not
consulted (`fromCache=false`), but the cache entry is NOT recreated: the
resulting cache state is exactly the old one — old raw output and old
createdAt 1000 — for the whole-workspace request and for the per-folder
request alike, because the handler only learns the cache file path on the
`!forceRefresh` branch and every cache write is guarded by that path. -/
theorem C3_forced_refresh_cache_not_recreated :
    runGET envForced stForced 2000 reqForcedWhole none =
      (ApiResponse.ok [⟨"//depot/a.txt", "", "", "edit", "text"⟩] false false, stForced,
       [ScanUnit.whole "C:/ws"])
    ∧ runGET envForced stForced 2000 reqForcedFolder none =
      (ApiResponse.ok [⟨"//depot/b.txt", "", "", "add", "text"⟩] true false, stForced,
       [ScanUnit.folder "C:/ws/sub"])
    ∧ (stForced.metadata = some ⟨some 1000, some []⟩
       ∧ 2000 - creationTimeOf stForced < CACHE_EXPIRY_MS) := by
  refine ⟨by decide, by decide, by decide, by decide⟩

/-- C4: a cache entry whose createdAt lies more than `CACHE_EXPIRY_MS`
(60 minutes) in the past is never returned as a hit; a hit is returned
exactly when the cache file exists and now minus createdAt is strictly
within the TTL; and on an expired entry the next (non-forced,
whole-workspace) request performs a fresh scan. -/
theorem C4_ttl_expiry (st : CacheState) (now : Nat) :
    (CACHE_EXPIRY_MS < now - creationTimeOf st → getCachedReconcileResults st now = none)
    ∧ (∀ c, getCachedReconcileResults st now = some c ↔
        (st.cacheFile = some c ∧ now - creationTimeOf st < CACHE_EXPIRY_MS))
    ∧ (∀ (env : P4Env) (req : ReconcileRequest) (pmOpt : Option PathMap),
        req.forceRefresh = false → req.clientRootParam ≠ "" →
        req.inclusionFolders = [] → env.p4Available = true → env.wholeScanOk = true →
        CACHE_EXPIRY_MS < now - creationTimeOf st →
        (runGET env st now req pmOpt).2.2 = [ScanUnit.whole req.clientRootParam]) := by
  have h1 : CACHE_EXPIRY_MS < now - creationTimeOf st →
      getCachedReconcileResults st now = none := by
    intro h
    rcases hcf : st.cacheFile with _ | c
    · simp [getCachedReconcileResults, hcf]
    · simp only [getCachedReconcileResults, hcf]
      rw [if_neg]
      omega
  refine ⟨h1, ?_, ?_⟩
  · intro c
    rcases hcf : st.cacheFile with _ | c2
    · simp [getCachedReconcileResults, hcf]
    · by_cases hlt : now - creationTimeOf st < CACHE_EXPIRY_MS
      · simp [getCachedReconcileResults, hcf, hlt]
      · simp [getCachedReconcileResults, hcf, hlt]
  · intro env req pmOpt hfr hroot hincl hp4 hws hexp
    simp [runGET, finishPhase, hp4, hfr, hws, hincl, hroot, h1 hexp]

/-- C4 witness: an entry created at time 0 looked up at time 10000000
(far beyond the TTL) is a miss. -/
theorem C4_witness :
    getCachedReconcileResults ⟨some "reconcile edit //depot/a.txt", some ⟨some 0, some []⟩⟩
      10000000 = none :=
  (C4_ttl_expiry ⟨some "reconcile edit //depot/a.txt", some ⟨some 0, some []⟩⟩ 10000000).1
    (by decide)

/-- C5: appending one folder's scan result to an existing cache entry
(cache file present, metadata with a createdAt present) concatenates the
folder output onto the entry's raw output, unions the folder path into
`processedFolders`, and leaves the createdAt timestamp at its original
value — the TTL clock is not reset. -/
theorem C5_append_preserves_createdAt (st : CacheState) (now : Nat)
    (folderPath folderOutput c : String) (m : Metadata) (t : Nat)
    (hcf : st.cacheFile = some c) (hmd : st.metadata = some m) (hts : m.timestamp = some t) :
    (appendFolderInline st now folderPath folderOutput).cacheFile = some (c ++ folderOutput)
    ∧ (appendFolderInline st now folderPath folderOutput).metadata =
        some ⟨some t, some (jsSetDedup (m.processedFolders.getD [] ++ [folderPath]))⟩ := by
  constructor
  · by_cases hc : 0 < c.length
    · simp [appendFolderInline, hcf, hc]
    · have hce : c = "" := by
        obtain ⟨cl⟩ := c
        cases cl with
        | nil => rfl
        | cons ch cl2 => exact absurd (by simp [String.length]) hc
      subst hce
      simp only [appendFolderInline, hcf]
      rw [if_neg hc, string_empty_append]
  · rcases hpf : m.processedFolders with _ | pf
    · simp [appendFolderInline, hmd, hts, hpf, jsSetDedup, jsSetDedupAux]
    · simp [appendFolderInline, hmd, hts, hpf]

/-- C5 witness: appending folder `f2` with output `B` to an entry holding
output `A`, createdAt 5 and processed folder `f1`, at time 99. -/
theorem C5_witness :
    (appendFolderInline ⟨some "A", some ⟨some 5, some ["f1"]⟩⟩ 99 "f2" "B").cacheFile =
      some ("A" ++ "B")
    ∧ (appendFolderInline ⟨some "A", some ⟨some 5, some ["f1"]⟩⟩ 99 "f2" "B").metadata =
      some ⟨some 5, some (jsSetDedup ((["f1"] : List String) ++ ["f2"]))⟩ :=
  C5_append_preserves_createdAt ⟨some "A", some ⟨some 5, some ["f1"]⟩⟩ 99 "f2" "B" "A"
    ⟨some 5, some ["f1"]⟩ 5 rfl rfl rfl

/-- C6: for a positive maxRecords the parser returns exactly the parse of
the first maxRecords input lines (so the result can hold fewer than
maxRecords records while further valid records exist: the concrete output
below yields 1 record under maxRecords 2 but 2 records without a limit),
and for maxRecords zero or negative all lines are considered. -/
theorem C6_line_slice_truncation (output : String) (m : Int) :
    (0 < m → parseP4ReconcileOutput output m = parseLines ((linesOf output).take m.toNat))
    ∧ (m ≤ 0 → parseP4ReconcileOutput output m = parseLines (linesOf output))
    ∧ parseP4ReconcileOutput "reconcile edit //depot/a.txt\ngarbage\nreconcile add //depot/b.txt" 2 =
        [⟨"//depot/a.txt", "", "", "edit", "text"⟩]
    ∧ parseP4ReconcileOutput "reconcile edit //depot/a.txt\ngarbage\nreconcile add //depot/b.txt" 0 =
        [⟨"//depot/a.txt", "", "", "edit", "text"⟩, ⟨"//depot/b.txt", "", "", "add", "text"⟩] := by
  refine ⟨fun hm => ?_, fun hm => ?_, by decide, by decide⟩
  · unfold parseP4ReconcileOutput
    rw [if_pos hm]
  · unfold parseP4ReconcileOutput
    rw [if_neg (not_lt.mpr hm)]

/-- C6 witness: the line-slice equation at maxRecords 1. -/
theorem C6_witness :
    parseP4ReconcileOutput "reconcile edit //depot/a.txt" 1 =
      parseLines ((linesOf "reconcile edit //depot/a.txt").take (1 : Int).toNat) :=
  (C6_line_slice_truncation "reconcile edit //depot/a.txt" 1).1 (by decide)

/-- C7: parsing the three-line raw output with a garbage middle line yields
exactly the two records, in input order, with statuses `edit` and `add`;
the non-matching line is skipped and produces no record. -/
theorem C7_parser_leniency :
    parseP4ReconcileOutput "reconcile edit //depot/a.txt\ngarbage line\nreconcile add //depot/b.txt" 0 =
      [⟨"//depot/a.txt", "", "", "edit", "text"⟩, ⟨"//depot/b.txt", "", "", "add", "text"⟩] := by
  decide

/-- C8: a request whose client root parameter is empty and whose root
cannot be resolved from `p4 info` is rejected with a 400 input error
naming the missing client root, and no reconcile scan subprocess is
spawned (the returned scan list is empty), whatever the cache state and
environment. -/
theorem C8_missing_root_rejected (env : P4Env) (st : CacheState) (now : Nat)
    (req : ReconcileRequest) (pmOpt : Option PathMap)
    (hp4 : env.p4Available = true) (hroot : req.clientRootParam = "")
    (hinfo : env.p4InfoRoot.getD "" = "") :
    runGET env st now req pmOpt =
      (ApiResponse.err 400 "No Perforce client root specified or found", st, []) := by
  simp [runGET, hp4, hroot, hinfo]

/-- C8 witness: a concrete unresolvable-root request is rejected with no
scan spawned. -/
theorem C8_witness :
    runGET ⟨true, none, true, "", none, fun _ => true, fun _ => true, fun _ => ""⟩
        ⟨none, none⟩ 0 ⟨"", [], 1000, false⟩ none =
      (ApiResponse.err 400 "No Perforce client root specified or found", ⟨none, none⟩, []) :=
  C8_missing_root_rejected _ _ _ _ _ rfl rfl rfl

/-- C9: the path-mapping phase never drops a record (length is preserved),
a failed mapping step leaves the parsed records untouched, depot path and
status of every record are preserved, a record matched by no mapping key
is returned unchanged, and every record produced by the parser has empty
client and local path fields — so unresolved records are returned with
those fields empty. -/
theorem C9_mapping_degradation (pmOpt : Option PathMap) (files : List P4ModifiedFile) :
    (applyPathMapping pmOpt files).length = files.length
    ∧ applyPathMapping none files = files
    ∧ (∀ i : Nat,
        ((applyPathMapping pmOpt files)[i]?).map P4ModifiedFile.depotFile =
          (files[i]?).map P4ModifiedFile.depotFile
        ∧ ((applyPathMapping pmOpt files)[i]?).map P4ModifiedFile.status =
          (files[i]?).map P4ModifiedFile.status)
    ∧ (∀ pm f, pmOpt = some pm →
        (jsObjKeys pm).find? (fun k => jsStartsWith f.depotFile k) = none →
        resolveFile pm f = f)
    ∧ (∀ (output : String) (mf : Int) r, r ∈ parseP4ReconcileOutput output mf →
        r.clientFile = "" ∧ r.localFile = "") := by
  refine ⟨?_, ?_, ?_, ?_, ?_⟩
  · rcases pmOpt with _ | pm <;> by_cases he : files.isEmpty <;>
      simp [applyPathMapping, he]
  · by_cases he : files.isEmpty <;> simp [applyPathMapping, he]
  · intro i
    rcases pmOpt with _ | pm
    · by_cases he : files.isEmpty <;> simp [applyPathMapping, he]
    · by_cases he : files.isEmpty
      · simp [applyPathMapping, he]
      · constructor <;>
          · simp only [applyPathMapping, he, if_neg, Bool.false_eq_true, List.getElem?_map]
            rcases hfi : files[i]? with _ | f <;>
              simp [hfi, resolveFile_depotFile, resolveFile_status]
  · intro pm f _ hfind
    unfold resolveFile
    rw [hfind]
  · intro output mf r hr
    simp only [parseP4ReconcileOutput, parseLines, List.mem_filterMap] at hr
    obtain ⟨l, -, hl⟩ := hr
    unfold lineRecord at hl
    rcases hpl : parseLine l with _ | ⟨d, a⟩ <;> rw [hpl] at hl <;> dsimp only at hl
    · exact absurd hl (by simp)
    · by_cases hde : d.isEmpty || a.isEmpty
      · rw [if_pos hde] at hl
        exact absurd hl (by simp)
      · rw [if_neg hde] at hl
        have := Option.some.inj hl
        subst this
        exact ⟨rfl, rfl⟩

/-- C9 witness: a record matched by no mapping key is returned unchanged
(with its empty client/local fields). -/
theorem C9_witness :
    resolveFile [("//x/", ⟨"/c/", "/l/"⟩)] ⟨"//other/a", "", "", "edit", "text"⟩ =
      ⟨"//other/a", "", "", "edit", "text"⟩ :=
  (C9_mapping_degradation (some [("//x/", ⟨"/c/", "/l/"⟩)])
      [⟨"//other/a", "", "", "edit", "text"⟩]).2.2.2.1
    [("//x/", ⟨"/c/", "/l/"⟩)] ⟨"//other/a", "", "", "edit", "text"⟩ rfl (by decide)

/-- C10: after any per-folder cache append the persisted `processedFolders`
list is duplicate-free and holds exactly the union of the previously
recorded folders and the newly appended folder — appending an
already-recorded folder produces no duplicate. -/
theorem C10_processed_folders_nodup (st : CacheState) (now : Nat) (f out : String) :
    ∃ md l, (appendFolderInline st now f out).metadata = some md
      ∧ md.processedFolders = some l ∧ l.Nodup
      ∧ ∀ x, x ∈ l ↔ (x ∈ prevProcessedFolders st ∨ x = f) := by
  rcases hmd : st.metadata with _ | m
  · refine ⟨⟨some now, some [f]⟩, [f], by simp [appendFolderInline, hmd], rfl, by simp, ?_⟩
    intro x
    simp [prevProcessedFolders, hmd]
  · rcases hpf : m.processedFolders with _ | pf
    · refine ⟨⟨some (m.timestamp.getD now), some [f]⟩, [f],
        by simp [appendFolderInline, hmd, hpf], rfl, by simp, ?_⟩
      intro x
      simp [prevProcessedFolders, hmd, hpf]
    · refine ⟨⟨some (m.timestamp.getD now), some (jsSetDedup (pf ++ [f]))⟩,
        jsSetDedup (pf ++ [f]),
        by simp [appendFolderInline, hmd, hpf], rfl, nodup_jsSetDedup _, ?_⟩
      intro x
      rw [mem_jsSetDedup]
      simp [prevProcessedFolders, hmd, hpf, List.mem_append]

end PerforceFriend
